import Mathlib

/-!
Verification of the admission-control / credential-issuance core in
`Rate-limiter/main.go` (token-bucket rate limiter plus token
issuance/validation over a persistent store with in-process caches).

Shallow embedding conventions:
* Go `float64` quantities (tokens, capacity, fill rate) are modelled as `ℚ`
  (exact arithmetic; the source's arithmetic on these values is plain +, *,
  comparison and clamping).
* `time.Time` instants are modelled as `ℚ` seconds; `a.Sub(b).Seconds()`
  becomes `a - b`, `a.Before(b)` becomes `a < b`, `a.After(b)` becomes
  `b < a`.
* The postgres database is modelled as an explicit list of token rows
  (`QueryRow` returns the first matching row); the two `sync.Map`s
  (`users`, `tokens`) are modelled as functions to `Option`.
* Mutation is modelled by explicit state passing.  Note the Go aliasing
  fact used by the model: `user := item.(User)` copies the struct but the
  `Tokens` field is a slice header, so `user.Tokens[i] = token` mutates
  the array shared with the value stored in the `users` map; the model
  therefore writes the updated `User` back into the registry.
-/

namespace RateLimiterGo

/-- Model of `TokenBucket` from main.go (the mutex is concurrency plumbing and has no
functional content in the sequential embedding). -/
structure TokenBucket where
  tokens : ℚ
  capacity : ℚ
  fillRate : ℚ
  lastRefillTime : ℚ
  deriving Repr, DecidableEq

/-- Model of `TokenBucket.refill` (main.go lines 216-231): add `elapsed * fillRate`
tokens, clamp at `capacity`, and advance `lastRefillTime` — but only when
`tokensToAdd > 0`. -/
def TokenBucket.refill (tb : TokenBucket) (now : ℚ) : TokenBucket :=
  let elapsedTime := now - tb.lastRefillTime
  let tokensToAdd := elapsedTime * tb.fillRate
  if 0 < tokensToAdd then
    let t := tb.tokens + tokensToAdd
    { tb with
      tokens := if tb.capacity < t then tb.capacity else t
      lastRefillTime := now }
  else
    tb

/-- Model of `TokenBucket.Allow` (main.go lines 234-248): refill, then consume one
token if at least one is present. Returns the decision and the updated
bucket. -/
def TokenBucket.Allow (tb : TokenBucket) (now : ℚ) : Bool × TokenBucket :=
  let tb := tb.refill now
  if 1 ≤ tb.tokens then
    (true, { tb with tokens := tb.tokens - 1 })
  else
    (false, tb)

/-- A fresh bucket as `RateLimiter.getLimiter` creates it (main.go lines
204-210): seeded full, with the limiter's global defaults. -/
def newBucket (capacity fillRate now : ℚ) : TokenBucket :=
  { tokens := capacity, capacity := capacity, fillRate := fillRate
    lastRefillTime := now }

/-- Run a sequence of `Allow` calls at the given instants, returning the
trace of (decision, bucket-state-after-call) pairs. -/
def runAllow (tb : TokenBucket) : List ℚ → List (Bool × TokenBucket)
  | [] => []
  | t :: ts =>
    let r := tb.Allow t
    r :: runAllow r.2 ts

/-- Model of `RateLimiter` from main.go: the concurrent map of per-client buckets
plus the global capacity / fill-rate defaults. -/
structure RateLimiter where
  limiters : String → Option TokenBucket
  capacity : ℚ
  fillRate : ℚ

/-- Model of `RateLimiter.getLimiter` (main.go lines 188-213): return the existing
bucket for the client, or create one seeded with `tokens = capacity` and
`lastRefillTime = now`.  (The double-checked locking collapses to a single
lookup in the sequential embedding; the race itself is modelled separately
below.) -/
def RateLimiter.getLimiter (rl : RateLimiter) (clientID : String) (now : ℚ) :
    TokenBucket × RateLimiter :=
  match rl.limiters clientID with
  | some b => (b, rl)
  | none =>
    let bucket := newBucket rl.capacity rl.fillRate now
    (bucket,
     { rl with
       limiters := fun k => if k = clientID then some bucket else rl.limiters k })

/-- Model of `RateLimiter.IsAllowed` (main.go lines 251-254): get-or-create the
client's bucket, call `Allow` on it.  The bucket is a pointer in Go, so the
`Allow` mutation is written back into the map. -/
def RateLimiter.IsAllowed (rl : RateLimiter) (clientID : String) (now : ℚ) :
    Bool × RateLimiter :=
  let p := rl.getLimiter clientID now
  let q := p.1.Allow now
  (q.1,
   { p.2 with
     limiters := fun k => if k = clientID then some q.2 else p.2.limiters k })

/-!
Interleaving model of N concurrent first-time `IsAllowed` calls for one
previously unseen client key (claim about `getLimiter`'s double-checked
creation).  Each task executes, in order:
* a lock-free `sync.Map` load (one atomic read: did a bucket exist?),
* if it saw none: the critical section under `globalMux` (re-load,
  create-and-store if still absent) — the section is lock-protected and
  touches only the map entry, so it is one atomic step,
* `Allow` on the (unique) bucket under the bucket's own mutex — one atomic
  step.  All calls happen at the creation instant, so `refill` adds
  nothing (`elapsedTime = 0`).
A schedule is an arbitrary list of task indices; each occurrence runs the
named task's next atomic step. -/

/-- Program counter of one first-time caller. -/
inductive TaskPC where
  | start       -- about to do the lock-free map load
  | needCreate  -- load saw no bucket; about to enter the critical section
  | haveBucket  -- holds the bucket pointer; about to call Allow
  | done
  deriving Repr, DecidableEq

/-- Shared state for the race on a single fresh key: whether a bucket has
been stored in the map, how many buckets were ever created, the bucket's
token count, how many calls were admitted, and every task's pc. -/
structure RaceState (n : ℕ) where
  created : Bool
  createCount : ℕ
  tokens : ℚ
  allowedCount : ℕ
  pcs : Fin n → TaskPC

/-- Initial state: unseen key (empty map), no task has run. -/
def RaceState.init (n : ℕ) : RaceState n :=
  { created := false, createCount := 0, tokens := 0, allowedCount := 0
    pcs := fun _ => .start }

/-- One atomic step of task `i` (no-op once the task is done). -/
def raceStep (cap : ℚ) (s : RaceState n) (i : Fin n) : RaceState n :=
  match s.pcs i with
  | .start =>
    -- lock-free rl.limiters.Load
    if s.created then
      { s with pcs := fun j => if j = i then .haveBucket else s.pcs j }
    else
      { s with pcs := fun j => if j = i then .needCreate else s.pcs j }
  | .needCreate =>
    -- globalMux critical section: double-checked load, create if absent
    if s.created then
      { s with pcs := fun j => if j = i then .haveBucket else s.pcs j }
    else
      { s with
        created := true
        createCount := s.createCount + 1
        tokens := cap   -- bucket seeded with tokens = capacity
        pcs := fun j => if j = i then .haveBucket else s.pcs j }
  | .haveBucket =>
    -- Allow under the bucket mutex, at the creation instant (elapsed = 0)
    if 1 ≤ s.tokens then
      { s with
        tokens := s.tokens - 1
        allowedCount := s.allowedCount + 1
        pcs := fun j => if j = i then .done else s.pcs j }
    else
      { s with pcs := fun j => if j = i then .done else s.pcs j }
  | .done => s

/-- Run a schedule (list of task indices) from a state. -/
def raceRun (cap : ℚ) (s : RaceState n) : List (Fin n) → RaceState n
  | [] => s
  | i :: sched => raceRun cap (raceStep cap s i) sched

/-! Token issuance / validation engine. -/

/-- Model of `User` from main.go: secret, permitted scopes, and the parallel
per-scope active-token cache (`Tokens[i]` caches a token for `Scopes[i]`;
`""` means none). -/
structure User where
  ClientSecret : String
  Scopes : List String
  Tokens : List String
  deriving Repr, DecidableEq

/-- Model of `TokenInfo` from main.go: the value type of the in-process token
cache. -/
structure TokenInfo where
  ClientID : String
  AccessScope : String
  ExpirationTime : ℚ
  deriving Repr, DecidableEq

/-- One row of the `token` table: `(access_token, client_id, access_scope,
expiration_time)`. -/
structure TokenRow where
  accessToken : String
  clientID : String
  accessScope : String
  expirationTime : ℚ
  deriving Repr, DecidableEq

/-- The mutable state the token service touches: the `users` map, the
`tokens` cache map, and the database `token` table (a list of rows;
`QueryRow` returns the first match). -/
structure SysState where
  users : String → Option User
  tokensCache : String → Option TokenInfo
  db : List TokenRow

/-- The errors of CheckToken (main.go lines 57-61). -/
inductive TokenErr where
  | noToken       -- "nonexistent token"  (InvalidToken)
  | tokenExpired  -- "token expired"      (ExpiredToken)
  deriving Repr, DecidableEq

/-- Model of `get_token` (main.go lines 100-116): query the `token` table by
`(client_id, access_scope)`; on a hit that is already expired, delete the
row and report no token (`""`).  Returns the token and the updated table. -/
def get_token (db : List TokenRow) (now : ℚ) (client_id scope : String) :
    String × List TokenRow :=
  match db.find? (fun r => r.clientID == client_id && r.accessScope == scope) with
  | none => ("", db)
  | some r =>
    if r.expirationTime < now then
      ("", db.filter (fun x => x.accessToken != r.accessToken))
    else
      (r.accessToken, db)

/-- The cache lookup at the top of `AddToken` (main.go lines 120-127): the
first scope slot matching `scope` whose cached token is non-empty.  Note
the source checks only non-emptiness — not expiration. -/
def cachedToken (user : User) (scope : String) : Option String :=
  ((user.Scopes.zip user.Tokens).find? (fun p => p.1 == scope && p.2 != "")).map
    Prod.snd

/-- Model of `AddToken` (main.go lines 118-139), the issuance core.  The database
generates the access token and expiration time of an inserted row (the
`insert ... returning access_token` query); the embedding takes them as
the parameters `newTok`/`newExp`, and `insertOk` says whether the insert
succeeded (on failure the source falls back to re-reading the store). -/
def AddToken (st : SysState) (now : ℚ) (newTok : String) (newExp : ℚ)
    (insertOk : Bool) (client_id scope : String) : String × SysState :=
  let cached : Option String :=
    match st.users client_id with
    | some user => cachedToken user scope
    | none => none
  match cached with
  | some t => (t, st)
  | none =>
    let p := get_token st.db now client_id scope
    let st := { st with db := p.2 }
    if p.1 != "" then
      (p.1, st)
    else if insertOk then
      (newTok, { st with db := st.db ++ [⟨newTok, client_id, scope, newExp⟩] })
    else
      let q := get_token st.db now client_id scope
      (q.1, { st with db := q.2 })

/-- The write-back of a freshly validated token into the client's per-scope
cache slot (main.go lines 165-173): set the token at the first index whose
scope matches, leave everything else alone.  (In Go this happens through
the shared backing array of the `Tokens` slice.) -/
def setFirstToken (scopes tokens : List String) (scope tok : String) :
    List String :=
  match scopes, tokens with
  | s :: ss, t :: ts =>
    if s == scope then tok :: ts else t :: setFirstToken ss ts scope tok
  | _, ts => ts

/-- The store half of `CheckToken` (main.go lines 153-174): query the
`token` table by token value; an unexpired row repopulates the token cache
and the client's per-scope slot. -/
def checkTokenStore (st : SysState) (now : ℚ) (token : String) :
    Except TokenErr (String × String) × SysState :=
  match st.db.find? (fun r => r.accessToken == token) with
  | none => (.error .noToken, st)
  | some row =>
    if row.expirationTime < now then
      (.error .tokenExpired, st)
    else
      let st1 : SysState :=
        { st with
          tokensCache := fun t =>
            if t = token then
              some ⟨row.clientID, row.accessScope, row.expirationTime⟩
            else st.tokensCache t }
      let st2 : SysState :=
        match st1.users row.clientID with
        | some user =>
          { st1 with
            users := fun id =>
              if id = row.clientID then
                some { user with
                       Tokens := setFirstToken user.Scopes user.Tokens
                         row.accessScope token }
              else st1.users id }
        | none => st1
      (.ok (row.clientID, row.accessScope), st2)

/-- Model of `CheckToken` (main.go lines 141-175), the validation core: consult the
token cache (trusting it only while unexpired, evicting an expired entry),
then fall through to the store path. -/
def CheckToken (st : SysState) (now : ℚ) (token : String) :
    Except TokenErr (String × String) × SysState :=
  match st.tokensCache token with
  | some info =>
    if now < info.ExpirationTime then
      (.ok (info.ClientID, info.AccessScope), st)
    else
      checkTokenStore
        { st with
          tokensCache := fun t =>
            if t = token then none else st.tokensCache t } now token
  | none => checkTokenStore st now token

/-- Outcome of the `/token/` handler as seen by the caller. -/
inductive HandlerResult where
  | panicked                 -- runtime panic (failed interface assertion)
  | badRequest (msg : String)
  | internalError
  | okToken (tok : String)
  deriving Repr, DecidableEq

/-- The `/token/` issuance handler (main.go lines 382-429), after form
binding.  The source runs `user := item.(User)` *before* testing
`user_ok`; when the client is unknown, `item` is a nil interface and the
type assertion panics, which the embedding records as `panicked`. -/
def tokenHandler (st : SysState) (now : ℚ) (newTok : String) (newExp : ℚ)
    (insertOk : Bool) (client_id scope client_secret grant_type : String) :
    HandlerResult × SysState :=
  if grant_type != "client_credentials" then
    (.badRequest "Incorrect grant type", st)
  else
    match st.users client_id with
    | none => (.panicked, st)  -- item.(User) on nil interface
    | some user =>
      if client_secret != user.ClientSecret then
        (.badRequest "Incorrect client credentials", st)
      else if !(user.Scopes.contains scope) then
        (.badRequest "Wrong scope", st)
      else
        let p := AddToken st now newTok newExp insertOk client_id scope
        if p.1 == "" then
          (.internalError, p.2)
        else
          (.okToken p.1, p.2)

/-! Startup bulk load of the client registry. -/

/-- One scanned row of `select * from public.user`:
`(client_id, client_secret, scope)`. -/
structure UserRow where
  id : String
  clientSecret : String
  scopes : List String
  deriving Repr, DecidableEq

/-- The per-row construction in `GetAllUsers` (main.go lines 78-87): scan
the row and attach an empty per-scope token cache. -/
def scanUser (r : UserRow) : String × User :=
  (r.id, { ClientSecret := r.clientSecret, Scopes := r.scopes
           Tokens := List.replicate r.scopes.length "" })

/-- Store a list of `(id, user)` pairs into the registry in order (later
stores for the same id win, as with `sync.Map.Store`). -/
def storeUsers (usrs : List (String × User)) (users : String → Option User) :
    String → Option User :=
  usrs.foldl (fun m p => fun id => if id = p.1 then some p.2 else m id) users

/-- Model of `GetAllUsers` (main.go lines 63-98): repeatedly query the whole user
table; only when an attempt yields exactly 1000 rows are they stored and
the loop exits, otherwise the attempt's rows are discarded and the query
retried (after a sleep).  The embedding consumes a list of query results
(one per attempt); `none` means every attempt fell through and the source
is still looping. -/
def GetAllUsers (users : String → Option User) :
    List (List UserRow) → Option (String → Option User)
  | [] => none
  | rows :: rest =>
    let usrs := rows.map scanUser
    if usrs.length = 1000 then
      some (storeUsers usrs users)
    else
      GetAllUsers users rest

/-! Concrete scenario used to exercise the issuance cache: one client
`"c1"` with secret `"s"` and single scope `"read"`, empty caches, empty
token table. -/

/-- Clean initial state for the stale-cache scenario. -/
def staleSt0 : SysState :=
  { users := fun id => if id = "c1" then some ⟨"s", ["read"], [""]⟩ else none
    tokensCache := fun _ => none
    db := [] }

/-- State after a successful issuance at time 0 (the database mints token
`"T"` expiring at time 100). -/
def staleSt1 : SysState :=
  (tokenHandler staleSt0 0 "T" 100 true "c1" "read" "s" "client_credentials").2

/-- State after validating `"T"` at time 1: the token cache and the
client's per-scope slot now hold `"T"`. -/
def staleSt2 : SysState := (CheckToken staleSt1 1 "T").2

/-- A state whose token cache misses `"T"` while the Store holds an
unexpired row for it (used to exercise the Validate store path). -/
def storeOnlySt : SysState :=
  { users := fun _ => none
    tokensCache := fun _ => none
    db := [⟨"T", "c1", "read", 100⟩] }

/-- A state whose token cache holds an expired entry for `"T"` while the
Store holds a fresh unexpired row for it (the cache must not be trusted). -/
def expiredCacheSt : SysState :=
  { users := fun _ => none
    tokensCache := fun t => if t = "T" then some ⟨"c1", "read", 10⟩ else none
    db := [⟨"T", "c1", "read", 50⟩] }

/-- Invariant of the interleaved execution: before any creation no call
has been admitted and every task is still before the bucket hand-off;
after creation, exactly one bucket was ever created and the admitted calls
are paid for by the bucket's tokens. -/
def RaceInv (cap : ℚ) (s : RaceState n) : Prop :=
  (s.created = false →
     s.createCount = 0 ∧ s.allowedCount = 0 ∧
       ∀ i, s.pcs i = .start ∨ s.pcs i = .needCreate) ∧
  (s.created = true →
     s.createCount = 1 ∧ 0 ≤ s.tokens ∧ s.tokens + (s.allowedCount : ℚ) ≤ cap)

/-! Theorems. -/

theorem refill_capacity (tb : TokenBucket) (now : ℚ) :
    (tb.refill now).capacity = tb.capacity := by
  unfold TokenBucket.refill
  dsimp only
  split <;> rfl

theorem refill_inv (tb : TokenBucket) (now : ℚ) (h0 : 0 ≤ tb.tokens)
    (h1 : tb.tokens ≤ tb.capacity) :
    0 ≤ (tb.refill now).tokens ∧ (tb.refill now).tokens ≤ tb.capacity := by
  unfold TokenBucket.refill
  dsimp only
  split
  · rename_i hadd
    dsimp only
    split
    · exact ⟨by linarith, le_refl _⟩
    · exact ⟨by linarith, by linarith⟩
  · exact ⟨h0, h1⟩

theorem Allow_capacity (tb : TokenBucket) (now : ℚ) :
    (tb.Allow now).2.capacity = tb.capacity := by
  unfold TokenBucket.Allow
  dsimp only
  split
  · exact refill_capacity tb now
  · exact refill_capacity tb now

theorem Allow_inv (tb : TokenBucket) (now : ℚ) (h0 : 0 ≤ tb.tokens)
    (h1 : tb.tokens ≤ tb.capacity) :
    0 ≤ (tb.Allow now).2.tokens ∧ (tb.Allow now).2.tokens ≤ (tb.Allow now).2.capacity := by
  have hr := refill_inv tb now h0 h1
  have hc := refill_capacity tb now
  unfold TokenBucket.Allow
  dsimp only
  split
  · rename_i hge
    dsimp only
    rw [hc]
    exact ⟨by linarith [hr.1, hge], by linarith [hr.2]⟩
  · rw [hc]
    exact hr

theorem runAllow_inv (tb : TokenBucket) (h0 : 0 ≤ tb.tokens)
    (h1 : tb.tokens ≤ tb.capacity) (ts : List ℚ) :
    ∀ r ∈ runAllow tb ts, 0 ≤ r.2.tokens ∧ r.2.tokens ≤ r.2.capacity := by
  induction ts generalizing tb with
  | nil => intro r hr; simp [runAllow] at hr
  | cons t ts ih =>
    intro r hr
    simp only [runAllow, List.mem_cons] at hr
    rcases hr with h | h
    · subst h
      exact Allow_inv tb t h0 h1
    · have hi := Allow_inv tb t h0 h1
      exact ih (tb.Allow t).2 hi.1 hi.2 r h

/-- Claim C1: For every client key and every sequence of `Allow` calls, at
arbitrary call instants (in particular with arbitrary non-negative elapsed
time between calls), a bucket seeded with `tokens = capacity` satisfies
`0 ≤ tokens ≤ capacity` after every call. -/
theorem C1_bucket_bound (capacity fillRate t0 : ℚ) (hcap : 0 ≤ capacity)
    (ts : List ℚ) :
    ∀ r ∈ runAllow (newBucket capacity fillRate t0) ts,
      0 ≤ r.2.tokens ∧ r.2.tokens ≤ r.2.capacity :=
  runAllow_inv _ hcap (le_refl _) ts

/-- Witness for C1 at capacity 10, fill rate 2, calls at t = 0, 1, 1. -/
theorem C1_bucket_bound_witness :
    0 ≤ (10 : ℚ) ∧
      ∀ r ∈ runAllow (newBucket 10 2 0) [0, 1, 1],
        0 ≤ r.2.tokens ∧ r.2.tokens ≤ r.2.capacity :=
  ⟨by norm_num, C1_bucket_bound 10 2 0 (by norm_num) [0, 1, 1]⟩

/-- Claim C2: Starting from a bucket with `tokens = 0`, after `t ≥ 0` seconds
with no consumption, the refill step that `Allow` performs before its
decrement check leaves `tokens = min capacity (t * fill_rate)` (for
non-negative capacity and fill rate). -/
theorem C2_refill_from_empty (capacity fillRate t0 t : ℚ)
    (hcap : 0 ≤ capacity) (hrate : 0 ≤ fillRate) (ht : 0 ≤ t) :
    (TokenBucket.refill ⟨0, capacity, fillRate, t0⟩ (t0 + t)).tokens
      = min capacity (t * fillRate) := by
  unfold TokenBucket.refill
  dsimp only
  have he : t0 + t - t0 = t := by ring
  rw [he]
  have hx : 0 ≤ t * fillRate := mul_nonneg ht hrate
  split
  · rename_i hpos
    dsimp only
    split
    · rename_i hlt
      rw [zero_add] at hlt
      exact (min_eq_left (le_of_lt hlt)).symm
    · rename_i hnlt
      rw [zero_add] at hnlt ⊢
      exact (min_eq_right (not_lt.mp hnlt)).symm
  · rename_i hnpos
    have hz : t * fillRate = 0 := le_antisymm (not_lt.mp hnpos) hx
    rw [hz]
    exact (min_eq_right hcap).symm

/-- Witness for C2: capacity 10, fill rate 2, empty bucket refilled after 3
seconds holds min 10 6 = 6 tokens. -/
theorem C2_refill_from_empty_witness :
    (0 ≤ (10 : ℚ) ∧ 0 ≤ (2 : ℚ) ∧ 0 ≤ (3 : ℚ)) ∧
      (TokenBucket.refill ⟨0, 10, 2, 5⟩ (5 + 3)).tokens = min 10 (3 * 2) :=
  ⟨by norm_num,
   C2_refill_from_empty 10 2 5 3 (by norm_num) (by norm_num) (by norm_num)⟩

/-- When a fresh bucket runs `Allow` at its creation instant, the refill
adds nothing (elapsed time 0) and the decision is exactly `1 ≤ capacity`. -/
theorem newBucket_Allow (capacity fillRate now : ℚ) :
    (newBucket capacity fillRate now).Allow now
      = (decide (1 ≤ capacity),
         if 1 ≤ capacity then
           { tokens := capacity - 1, capacity := capacity, fillRate := fillRate
             lastRefillTime := now }
         else newBucket capacity fillRate now) := by
  unfold newBucket TokenBucket.Allow TokenBucket.refill
  simp only [sub_self, zero_mul, lt_self_iff_false, if_false]
  split
  · rename_i h
    simp [h]
  · rename_i h
    simp [h]

/-- Claim C7, amended: If the limiter's configured capacity is at least 1,
then for a key with no existing bucket the first `Allow` returns allowed,
and the bucket is created seeded with `tokens = capacity`. -/
theorem C7_first_allow (rl : RateLimiter) (key : String) (now : ℚ)
    (hnone : rl.limiters key = none) (hcap : 1 ≤ rl.capacity) :
    ((rl.IsAllowed key now).1 = true) ∧
      (rl.getLimiter key now).1.tokens = rl.capacity := by
  unfold RateLimiter.IsAllowed RateLimiter.getLimiter
  simp only [hnone]
  rw [newBucket_Allow]
  simp [hcap, newBucket]

/-- Witness for C7 (amended) at capacity 10. -/
theorem C7_first_allow_witness :
    ((RateLimiter.mk (fun _ => none) 10 2).limiters "k" = none ∧
        1 ≤ (10 : ℚ)) ∧
      (((RateLimiter.mk (fun _ => none) 10 2).IsAllowed "k" 0).1 = true ∧
        ((RateLimiter.mk (fun _ => none) 10 2).getLimiter "k" 0).1.tokens = 10) :=
  ⟨⟨rfl, by norm_num⟩,
   C7_first_allow (RateLimiter.mk (fun _ => none) 10 2) "k" 0 rfl (by norm_num)⟩

/-- Claim C7 counterexample: With a configured capacity below 1 (capacity is
a float read from `RATE_LIMIT_CAPACITY`), the very first `Allow` for a
fresh key is denied: the claim "the very first Allow call returns allowed"
fails at capacity 1/2. -/
theorem C7_counterexample :
    (RateLimiter.mk (fun _ => none) (1/2) 1).limiters "k" = none ∧
      ((RateLimiter.mk (fun _ => none) (1/2) 1).IsAllowed "k" 0).1 = false := by
  constructor
  · rfl
  · unfold RateLimiter.IsAllowed RateLimiter.getLimiter
    simp only
    rw [newBucket_Allow]
    norm_num

/-- Claim C10: `IsAllowed k1` leaves the bucket of every other key `k2 ≠ k1`
unchanged, and leaves the limiter's global capacity and fill-rate defaults
unchanged. -/
theorem C10_frame (rl : RateLimiter) (k1 k2 : String) (now : ℚ)
    (hne : k2 ≠ k1) :
    (rl.IsAllowed k1 now).2.limiters k2 = rl.limiters k2 ∧
      (rl.IsAllowed k1 now).2.capacity = rl.capacity ∧
      (rl.IsAllowed k1 now).2.fillRate = rl.fillRate := by
  unfold RateLimiter.IsAllowed RateLimiter.getLimiter
  cases h : rl.limiters k1 <;> simp [h, hne]

/-- Witness for C10: a call for key "a" does not touch key "b". -/
theorem C10_frame_witness :
    ("b" ≠ "a") ∧
      (((RateLimiter.mk (fun _ => none) 10 2).IsAllowed "a" 0).2.limiters "b"
          = (RateLimiter.mk (fun _ => none) 10 2).limiters "b" ∧
        ((RateLimiter.mk (fun _ => none) 10 2).IsAllowed "a" 0).2.capacity = 10 ∧
        ((RateLimiter.mk (fun _ => none) 10 2).IsAllowed "a" 0).2.fillRate = 2) :=
  ⟨by decide,
   C10_frame (RateLimiter.mk (fun _ => none) 10 2) "a" "b" 0 (by decide)⟩

/-! The race invariant for N concurrent first-time `Allow` calls. -/

theorem raceStep_inv (cap : ℚ) (hcap : 0 ≤ cap) (s : RaceState n) (i : Fin n)
    (h : RaceInv cap s) : RaceInv cap (raceStep cap s i) := by
  obtain ⟨hF, hT⟩ := h
  unfold raceStep
  cases hpc : s.pcs i with
  | start =>
    cases hc : s.created with
    | true =>
      simp only [RaceInv, reduceIte]
      exact ⟨fun hx => absurd hx (by simp), fun _ => hT hc⟩
    | false =>
      simp only [RaceInv, Bool.false_eq_true, if_false]
      refine ⟨fun _ => ?_, fun hx => absurd hx (by simp)⟩
      obtain ⟨h1, h2, h3⟩ := hF hc
      refine ⟨h1, h2, fun j => ?_⟩
      by_cases hj : j = i
      · simp [hj]
      · simpa [hj] using h3 j
  | needCreate =>
    cases hc : s.created with
    | true =>
      simp only [RaceInv, reduceIte]
      exact ⟨fun hx => absurd hx (by simp), fun _ => hT hc⟩
    | false =>
      simp only [RaceInv, Bool.false_eq_true, if_false]
      refine ⟨fun hx => absurd hx (by simp), fun _ => ?_⟩
      obtain ⟨h1, h2, h3⟩ := hF hc
      refine ⟨by rw [h1], hcap, ?_⟩
      rw [h2]
      simp
  | haveBucket =>
    cases hc : s.created with
    | false =>
      exfalso
      rcases (hF hc).2.2 i with hi | hi <;> rw [hpc] at hi <;> simp at hi
    | true =>
      obtain ⟨h1, h2, h3⟩ := hT hc
      by_cases hts : 1 ≤ s.tokens
      · rw [if_pos hts]
        simp only [RaceInv]
        refine ⟨fun hx => absurd hx (by simp), fun _ => ⟨h1, by linarith, ?_⟩⟩
        push_cast
        linarith
      · rw [if_neg hts]
        simp only [RaceInv]
        exact ⟨fun hx => absurd hx (by simp), fun _ => ⟨h1, h2, h3⟩⟩
  | done =>
    exact ⟨hF, hT⟩

theorem raceRun_inv (cap : ℚ) (hcap : 0 ≤ cap) (s : RaceState n)
    (h : RaceInv cap s) (sched : List (Fin n)) :
    RaceInv cap (raceRun cap s sched) := by
  induction sched generalizing s with
  | nil => exact h
  | cons i sched ih => exact ih _ (raceStep_inv cap hcap s i h)

/-- Claim C9: Any interleaving of `n ≥ 1` concurrent first-time `Allow`
calls for the same previously unseen key that runs every call to
completion creates exactly one `TokenBucket` for that key, and admits at
most `capacity` of the calls. -/
theorem C9_race_one_bucket (n : ℕ) (cap : ℚ) (hcap : 0 ≤ cap) (hn : 0 < n)
    (sched : List (Fin n))
    (hdone : ∀ i, (raceRun cap (RaceState.init n) sched).pcs i = .done) :
    (raceRun cap (RaceState.init n) sched).createCount = 1 ∧
      ((raceRun cap (RaceState.init n) sched).allowedCount : ℚ) ≤ cap := by
  have hinit : RaceInv cap (RaceState.init n) := by
    refine ⟨fun _ => ⟨rfl, rfl, fun i => Or.inl rfl⟩, fun hx => absurd hx (by simp [RaceState.init])⟩
  obtain ⟨hF, hT⟩ := raceRun_inv cap hcap _ hinit sched
  cases hc : (raceRun cap (RaceState.init n) sched).created with
  | false =>
    exfalso
    rcases (hF hc).2.2 ⟨0, hn⟩ with hi | hi <;>
      rw [hdone ⟨0, hn⟩] at hi <;> simp at hi
  | true =>
    obtain ⟨h1, h2, h3⟩ := hT hc
    exact ⟨h1, by linarith⟩

/-- Witness for C9: two tasks racing on one fresh key with capacity 10; in
the scheduled interleaving task 0 creates the bucket, task 1 sees it via
the double-checked path, both complete; one bucket is created and at most
10 calls are admitted. -/
theorem C9_race_one_bucket_witness :
    (0 ≤ (10 : ℚ) ∧ 0 < 2 ∧
        ∀ i, (raceRun 10 (RaceState.init 2) [0, 0, 1, 1, 0, 1]).pcs i = .done) ∧
      ((raceRun 10 (RaceState.init 2) [0, 0, 1, 1, 0, 1]).createCount = 1 ∧
        ((raceRun 10 (RaceState.init 2) [0, 0, 1, 1, 0, 1]).allowedCount : ℚ) ≤ 10) :=
  have hdone : ∀ i, (raceRun 10 (RaceState.init 2) [0, 0, 1, 1, 0, 1]).pcs i = .done := by
    intro i
    fin_cases i <;> norm_num [raceRun, raceStep, RaceState.init]
  ⟨⟨by norm_num, by norm_num, hdone⟩,
   C9_race_one_bucket 2 10 (by norm_num) (by norm_num) [0, 0, 1, 1, 0, 1] hdone⟩

/-! CheckToken path lemmas. -/

theorem checkTokenStore_none (st : SysState) (now : ℚ) (tok : String)
    (h : st.db.find? (fun r => r.accessToken == tok) = none) :
    checkTokenStore st now tok = (.error .noToken, st) := by
  unfold checkTokenStore
  split
  · rfl
  · rename_i row hrow
    rw [h] at hrow
    cases hrow

theorem checkTokenStore_expired (st : SysState) (now : ℚ) (tok : String)
    (row : TokenRow)
    (h : st.db.find? (fun r => r.accessToken == tok) = some row)
    (hexp : row.expirationTime < now) :
    checkTokenStore st now tok = (.error .tokenExpired, st) := by
  unfold checkTokenStore
  split
  · rename_i hnone
    rw [h] at hnone
    cases hnone
  · rename_i row' hrow
    rw [h] at hrow
    injection hrow with hr
    subst hr
    rw [if_pos hexp]

theorem checkTokenStore_valid (st : SysState) (now : ℚ) (tok : String)
    (row : TokenRow)
    (h : st.db.find? (fun r => r.accessToken == tok) = some row)
    (hexp : ¬ row.expirationTime < now) :
    (checkTokenStore st now tok).1 = .ok (row.clientID, row.accessScope) ∧
      (checkTokenStore st now tok).2.tokensCache tok
        = some ⟨row.clientID, row.accessScope, row.expirationTime⟩ ∧
      (checkTokenStore st now tok).2.db = st.db := by
  unfold checkTokenStore
  split
  · rename_i hnone
    rw [h] at hnone
    cases hnone
  · rename_i row' hrow
    rw [h] at hrow
    injection hrow with hr
    subst hr
    rw [if_neg hexp]
    dsimp only
    split <;> simp

theorem CheckToken_cache_miss (st : SysState) (now : ℚ) (tok : String)
    (h : st.tokensCache tok = none) :
    CheckToken st now tok = checkTokenStore st now tok := by
  unfold CheckToken
  split
  · rename_i info hinfo
    rw [h] at hinfo
    cases hinfo
  · rfl

theorem CheckToken_cache_hit (st : SysState) (now : ℚ) (tok : String)
    (info : TokenInfo) (h : st.tokensCache tok = some info)
    (hvalid : now < info.ExpirationTime) :
    CheckToken st now tok = (.ok (info.ClientID, info.AccessScope), st) := by
  unfold CheckToken
  split
  · rename_i info' hinfo
    rw [h] at hinfo
    injection hinfo with hi
    subst hi
    rw [if_pos hvalid]
  · rename_i hnone
    rw [h] at hnone
    cases hnone

theorem CheckToken_cache_expired (st : SysState) (now : ℚ) (tok : String)
    (info : TokenInfo) (h : st.tokensCache tok = some info)
    (hexp : ¬ now < info.ExpirationTime) :
    CheckToken st now tok
      = checkTokenStore
          { st with
            tokensCache := fun t => if t = tok then none else st.tokensCache t }
          now tok := by
  unfold CheckToken
  split
  · rename_i info' hinfo
    rw [h] at hinfo
    injection hinfo with hi
    subst hi
    rw [if_neg hexp]
  · rename_i hnone
    rw [h] at hnone
    cases hnone

/-- Claim C6: On a token-cache miss, `CheckToken` fails with `InvalidToken`
when the Store has no row for the token, fails with `ExpiredToken` when the
row's expiration is in the past, and otherwise returns the row's
`(clientID, scope)` and populates the token cache with
`(clientID, scope, expires_at)`. -/
theorem C6_validate_store_path (st : SysState) (now : ℚ) (tok : String)
    (hmiss : st.tokensCache tok = none) :
    (st.db.find? (fun r => r.accessToken == tok) = none →
        CheckToken st now tok = (.error .noToken, st)) ∧
      ∀ row, st.db.find? (fun r => r.accessToken == tok) = some row →
        (row.expirationTime < now →
            CheckToken st now tok = (.error .tokenExpired, st)) ∧
          (¬ row.expirationTime < now →
            (CheckToken st now tok).1 = .ok (row.clientID, row.accessScope) ∧
              (CheckToken st now tok).2.tokensCache tok
                = some ⟨row.clientID, row.accessScope, row.expirationTime⟩) := by
  rw [CheckToken_cache_miss st now tok hmiss]
  exact ⟨fun h => checkTokenStore_none st now tok h,
    fun row hrow =>
      ⟨fun hexp => checkTokenStore_expired st now tok row hrow hexp,
       fun hexp =>
         ⟨(checkTokenStore_valid st now tok row hrow hexp).1,
          (checkTokenStore_valid st now tok row hrow hexp).2.1⟩⟩⟩

/-- Witness for C6 on `storeOnlySt` (no cache entry, one Store row for
`"T"` expiring at 100), checked at time 50. -/
theorem C6_validate_store_path_witness :
    storeOnlySt.tokensCache "T" = none ∧
      ((storeOnlySt.db.find? (fun r => r.accessToken == "T") = none →
          CheckToken storeOnlySt 50 "T" = (.error .noToken, storeOnlySt)) ∧
        ∀ row, storeOnlySt.db.find? (fun r => r.accessToken == "T") = some row →
          (row.expirationTime < 50 →
              CheckToken storeOnlySt 50 "T" = (.error .tokenExpired, storeOnlySt)) ∧
            (¬ row.expirationTime < 50 →
              (CheckToken storeOnlySt 50 "T").1 = .ok (row.clientID, row.accessScope) ∧
                (CheckToken storeOnlySt 50 "T").2.tokensCache "T"
                  = some ⟨row.clientID, row.accessScope, row.expirationTime⟩)) :=
  ⟨rfl, C6_validate_store_path storeOnlySt 50 "T" rfl⟩

/-- Claim C4 counterexample: A reachable stale-cache state: issue `"T"`
(expiring at 100) at time 0, validate it at time 1 (which fills the
client's per-scope active-token slot), then run the issuance path again at
time 200.  `AddToken` returns `"T"` straight from the per-client in-process
cache with no expiration check, although the Store row for `"T"` says it
expired at time 100 < 200 — so "every cache hit in Issue is checked for
expiration" is false. -/
theorem C4_counterexample :
    (AddToken staleSt2 200 "T2" 7400 true "c1" "read").1 = "T" ∧
      staleSt2.users "c1" = some ⟨"s", ["read"], ["T"]⟩ ∧
      staleSt2.db.find? (fun r => r.accessToken == "T")
        = some ⟨"T", "c1", "read", 100⟩ ∧
      (100 : ℚ) < 200 := by
  refine ⟨rfl, rfl, rfl, by norm_num⟩

/-- Claim C4, amended: `Validate` does check expiration before trusting the
in-process token cache: if the cache entry for a token is already expired,
a successful `Validate` can only come from an unexpired Store row for that
token (the `Issue` half of the original claim fails: its per-client cache
hit is returned without an expiration check). -/
theorem C4_validate_checks_expiry (st : SysState) (now : ℚ) (tok : String)
    (info : TokenInfo) (hcache : st.tokensCache tok = some info)
    (hexp : info.ExpirationTime ≤ now) (id scope : String)
    (hok : (CheckToken st now tok).1 = .ok (id, scope)) :
    ∃ row ∈ st.db, row.accessToken = tok ∧ ¬ row.expirationTime < now ∧
      row.clientID = id ∧ row.accessScope = scope := by
  rw [CheckToken_cache_expired st now tok info hcache (not_lt.mpr hexp)] at hok
  set stE : SysState :=
    { st with tokensCache := fun t => if t = tok then none else st.tokensCache t }
    with hstE
  cases hfind : st.db.find? (fun r => r.accessToken == tok) with
  | none =>
    rw [checkTokenStore_none stE now tok hfind] at hok
    cases hok
  | some row =>
    by_cases hrexp : row.expirationTime < now
    · rw [checkTokenStore_expired stE now tok row hfind hrexp] at hok
      cases hok
    · have hv := (checkTokenStore_valid stE now tok row hfind hrexp).1
      rw [hv] at hok
      injection hok with hpair
      refine ⟨row, List.mem_of_find?_eq_some hfind, ?_, hrexp, ?_, ?_⟩
      · simpa using List.find?_some hfind
      · exact congrArg Prod.fst hpair
      · exact congrArg Prod.snd hpair

/-- Witness for C4 (amended) on `expiredCacheSt` (cache entry for `"T"`
expired at 10, Store row fresh until 50), checked at time 20. -/
theorem C4_validate_checks_expiry_witness :
    (expiredCacheSt.tokensCache "T" = some ⟨"c1", "read", 10⟩ ∧
        (10 : ℚ) ≤ 20 ∧
        (CheckToken expiredCacheSt 20 "T").1 = .ok ("c1", "read")) ∧
      ∃ row ∈ expiredCacheSt.db, row.accessToken = "T" ∧
        ¬ row.expirationTime < 20 ∧ row.clientID = "c1" ∧
        row.accessScope = "read" :=
  ⟨⟨rfl, by norm_num, rfl⟩,
   C4_validate_checks_expiry expiredCacheSt 20 "T" ⟨"c1", "read", 10⟩ rfl
     (by norm_num) "c1" "read" rfl⟩

/-- Claim C5, code behaviour at the failing input: For an unknown client the
`/token/` handler does not fail with an auth error: `users.Load` misses,
and the unconditional `item.(User)` type assertion on the nil interface
panics before `user_ok` is ever consulted.  For a known client with a
wrong secret the handler does reject the request ("Incorrect client
credentials" — a single error shared with the unknown-client intent) and
leaves the state, in particular the Store, unchanged. -/
theorem C5_unknown_client_panics :
    (tokenHandler ⟨fun _ => none, fun _ => none, []⟩ 0 "T" 100 true
        "ghost" "read" "secret" "client_credentials").1 = .panicked ∧
      tokenHandler staleSt0 0 "T" 100 true "c1" "read" "wrong"
          "client_credentials"
        = (.badRequest "Incorrect client credentials", staleSt0) :=
  ⟨rfl, rfl⟩

/-- On a fresh issuance (no cached per-client token, no existing Store row
for the pair) with a successful insert, `AddToken` returns the
database-minted token and appends its row to the `token` table. -/
theorem AddToken_fresh (st : SysState) (now newExp : ℚ)
    (newTok cid scope : String) (user : User)
    (huser : st.users cid = some user)
    (hcached : cachedToken user scope = none)
    (hpair : st.db.find?
        (fun r => r.clientID == cid && r.accessScope == scope) = none) :
    AddToken st now newTok newExp true cid scope
      = (newTok, { st with db := st.db ++ [⟨newTok, cid, scope, newExp⟩] }) := by
  unfold AddToken get_token
  rw [huser]
  simp only [hcached, hpair]
  rfl

/-- Claim C3: Fresh valid issuance round trip: for a known client whose
secret matches and whose permitted scopes include `scope`, with no cached
or stored token for the pair and a fresh database-minted token
`(newTok, newExp)`, `Issue` returns `newTok`; validating `newTok` before
`newExp` succeeds with the original `(client_id, scope)`, and validating
it again after `newExp` has passed fails with `ExpiredToken`. -/
theorem C3_issue_validate_roundtrip (st : SysState)
    (t0 t1 t2 newExp : ℚ) (newTok cid scope secret : String) (user : User)
    (huser : st.users cid = some user)
    (hsec : user.ClientSecret = secret)
    (hscope : user.Scopes.contains scope = true)
    (hcached : cachedToken user scope = none)
    (hpair : st.db.find?
        (fun r => r.clientID == cid && r.accessScope == scope) = none)
    (hfreshdb : st.db.find? (fun r => r.accessToken == newTok) = none)
    (hfreshcache : st.tokensCache newTok = none)
    (hne : newTok ≠ "")
    (h1 : t1 < newExp) (h2 : newExp < t2) :
    (tokenHandler st t0 newTok newExp true cid scope secret
        "client_credentials").1 = .okToken newTok ∧
      (CheckToken (tokenHandler st t0 newTok newExp true cid scope secret
          "client_credentials").2 t1 newTok).1 = .ok (cid, scope) ∧
      (CheckToken (CheckToken (tokenHandler st t0 newTok newExp true cid
          scope secret "client_credentials").2 t1 newTok).2 t2 newTok).1
        = .error .tokenExpired := by
  have hAdd := AddToken_fresh st t0 newExp newTok cid scope user huser hcached hpair
  have hH : tokenHandler st t0 newTok newExp true cid scope secret
      "client_credentials"
      = (.okToken newTok, { st with db := st.db ++ [⟨newTok, cid, scope, newExp⟩] }) := by
    unfold tokenHandler
    rw [huser, hAdd]
    simp [hsec, hne]
    simpa using hscope
  set st1 : SysState := { st with db := st.db ++ [⟨newTok, cid, scope, newExp⟩] }
    with hst1
  rw [hH]
  have hrowfind : st1.db.find? (fun r => r.accessToken == newTok)
      = some ⟨newTok, cid, scope, newExp⟩ := by
    show (st.db ++ [(⟨newTok, cid, scope, newExp⟩ : TokenRow)]).find?
        (fun r => r.accessToken == newTok) = some ⟨newTok, cid, scope, newExp⟩
    rw [List.find?_append, hfreshdb]
    simp
  have hmiss1 : st1.tokensCache newTok = none := hfreshcache
  have hnexp1 : ¬ (newExp < t1) := not_lt.mpr (le_of_lt h1)
  have hv := checkTokenStore_valid st1 t1 newTok ⟨newTok, cid, scope, newExp⟩
    hrowfind hnexp1
  have hCk1 : CheckToken st1 t1 newTok = checkTokenStore st1 t1 newTok :=
    CheckToken_cache_miss st1 t1 newTok hmiss1
  refine ⟨rfl, ?_, ?_⟩
  · rw [hCk1]
    exact hv.1
  · -- second validation, after expiry
    set st2 : SysState := (CheckToken st1 t1 newTok).2 with hst2
    have hcache2 : st2.tokensCache newTok = some ⟨cid, scope, newExp⟩ := by
      rw [hst2, hCk1]
      exact hv.2.1
    have hdb2 : st2.db = st1.db := by
      rw [hst2, hCk1]
      exact hv.2.2
    have hnv : ¬ (t2 < (⟨cid, scope, newExp⟩ : TokenInfo).ExpirationTime) :=
      not_lt.mpr (le_of_lt h2)
    rw [CheckToken_cache_expired st2 t2 newTok ⟨cid, scope, newExp⟩ hcache2 hnv]
    set st2E : SysState :=
      { st2 with
        tokensCache := fun t => if t = newTok then none else st2.tokensCache t }
      with hst2E
    have hfind2 : st2E.db.find? (fun r => r.accessToken == newTok)
        = some ⟨newTok, cid, scope, newExp⟩ := by
      show st2.db.find? (fun r => r.accessToken == newTok)
          = some ⟨newTok, cid, scope, newExp⟩
      rw [hdb2]
      exact hrowfind
    rw [checkTokenStore_expired st2E t2 newTok ⟨newTok, cid, scope, newExp⟩
      hfind2 h2]

/-- Witness for C3: client `"c1"`, secret `"s"`, scope `"read"`, token
`"T"` minted at time 0 expiring at 100, validated at times 1 and 200. -/
theorem C3_issue_validate_roundtrip_witness :
    (staleSt0.users "c1" = some ⟨"s", ["read"], [""]⟩ ∧
        (1 : ℚ) < 100 ∧ (100 : ℚ) < 200) ∧
      ((tokenHandler staleSt0 0 "T" 100 true "c1" "read" "s"
          "client_credentials").1 = .okToken "T" ∧
        (CheckToken (tokenHandler staleSt0 0 "T" 100 true "c1" "read" "s"
            "client_credentials").2 1 "T").1 = .ok ("c1", "read") ∧
        (CheckToken (CheckToken (tokenHandler staleSt0 0 "T" 100 true "c1"
            "read" "s" "client_credentials").2 1 "T").2 200 "T").1
          = .error .tokenExpired) :=
  ⟨⟨rfl, by norm_num, by norm_num⟩,
   C3_issue_validate_roundtrip staleSt0 0 1 200 100 "T" "c1" "read" "s"
     ⟨"s", ["read"], [""]⟩ rfl rfl rfl rfl rfl rfl rfl (by decide)
     (by norm_num) (by norm_num)⟩

/-- Attempts that do not return exactly 1000 rows store nothing and are
skipped. -/
theorem GetAllUsers_cons (users : String → Option User) (a : List UserRow)
    (t : List (List UserRow)) :
    GetAllUsers users (a :: t)
      = if (a.map scanUser).length = 1000
        then some (storeUsers (a.map scanUser) users)
        else GetAllUsers users t := rfl

theorem GetAllUsers_skip (users : String → Option User)
    (pre rest : List (List UserRow)) (hpre : ∀ a ∈ pre, a.length ≠ 1000) :
    GetAllUsers users (pre ++ rest) = GetAllUsers users rest := by
  induction pre with
  | nil => rfl
  | cons a t ih =>
    have ha := hpre a (List.mem_cons_self a t)
    show GetAllUsers users (a :: (t ++ rest)) = GetAllUsers users rest
    rw [GetAllUsers_cons, if_neg (by rw [List.length_map]; exact ha)]
    exact ih fun b hb => hpre b (List.mem_cons_of_mem a hb)

/-- If no attempt ever returns exactly 1000 rows the load never returns. -/
theorem GetAllUsers_stuck (users : String → Option User)
    (attempts : List (List UserRow))
    (h : ∀ a ∈ attempts, a.length ≠ 1000) :
    GetAllUsers users attempts = none := by
  induction attempts with
  | nil => rfl
  | cons a t ih =>
    rw [GetAllUsers_cons,
      if_neg (by rw [List.length_map]; exact h a (List.mem_cons_self a t))]
    exact ih fun b hb => h b (List.mem_cons_of_mem a hb)

/-- Claim C8: The startup bulk load terminates exactly when a query returns a
complete page of 1000 rows: attempts with any other row count store
nothing and the load retries, the first 1000-row attempt is stored
verbatim into the registry, and if no attempt ever has exactly 1000 rows
the load never returns. -/
theorem C8_bulk_load (users : String → Option User)
    (pre rest : List (List UserRow)) (rows : List UserRow)
    (hpre : ∀ a ∈ pre, a.length ≠ 1000) (hrows : rows.length = 1000) :
    GetAllUsers users (pre ++ rows :: rest)
        = some (storeUsers (rows.map scanUser) users) ∧
      ∀ attempts, (∀ a ∈ attempts, a.length ≠ 1000) →
        GetAllUsers users attempts = none := by
  constructor
  · rw [GetAllUsers_skip users pre (rows :: rest) hpre]
    rw [GetAllUsers_cons, if_pos (by rw [List.length_map]; exact hrows)]
  · exact fun attempts h => GetAllUsers_stuck users attempts h

/-- Witness for C8: a short (empty) first page is retried; a page of
exactly 1000 rows is stored and ends the loop. -/
theorem C8_bulk_load_witness :
    ((∀ a ∈ [([] : List UserRow)], a.length ≠ 1000) ∧
        (List.replicate 1000 (⟨"c", "s", []⟩ : UserRow)).length = 1000) ∧
      (GetAllUsers (fun _ => none)
          ([[]] ++ List.replicate 1000 (⟨"c", "s", []⟩ : UserRow) :: [])
          = some (storeUsers
              ((List.replicate 1000 (⟨"c", "s", []⟩ : UserRow)).map scanUser)
              (fun _ => none)) ∧
        ∀ attempts, (∀ a ∈ attempts, a.length ≠ 1000) →
          GetAllUsers (fun _ => none) attempts = none) :=
  ⟨⟨fun a ha => by rw [List.mem_singleton] at ha; subst ha; simp,
    by rw [List.length_replicate]⟩,
   C8_bulk_load (fun _ => none) [[]] [] (List.replicate 1000 ⟨"c", "s", []⟩)
     (fun a ha => by rw [List.mem_singleton] at ha; subst ha; simp)
     (by rw [List.length_replicate])⟩

end RateLimiterGo
